import Mathlib

/-!
Shallow embedding of the in-memory booking MockServer from
`src/lib/bookingClient.ts`, together with proofs about the lock/confirm/release
protocol and the expiry sweeper.

Modelling conventions:
* JS `Map` objects become association lists with map-set / map-delete
  semantics (`upsertBy`, delete = filter on the key).
* `Date.now()` becomes an explicit `now : Nat` argument (milliseconds).
* The randomly generated lock id becomes an explicit `lockId : String`
  argument of `lockSlot`.
* The random constructor data (slot count 5..9 and the per-slot 40% `booked`
  flag draw) becomes an explicit `flags : List Bool` argument of `initState`.
* `bumpVersionAndBroadcast` appends the broadcast event to an `events` log in
  the state, so notifications are observable.
* JS truthiness of `req.expectedVersion && req.expectedVersion !== this.version`
  is kept: `expectedVersion = some 0` is falsy and skips the version check.
-/

namespace Booking

inductive SlotStatus where
  | available
  | locked
  | booked
  deriving DecidableEq, Repr

/-- `TimeSlot` as used by the MockServer: `id`, `label`, `status`, the
optional `lockedBy` owner, and the extra boolean `booked` flag the
constructor sets on roughly 40% of slots. -/
structure TimeSlot where
  id : String
  label : String
  status : SlotStatus
  lockedBy : Option String
  booked : Bool
  deriving DecidableEq, Repr

/-- `LockRecord` from the source: lockId, slotId, userId, expiresAt (ms). -/
structure LockRecord where
  lockId : String
  slotId : String
  userId : String
  expiresAt : Nat
  deriving DecidableEq, Repr

/-- One broadcast event: the slots snapshot plus the version stamped on it. -/
structure UpdateEvent where
  slots : List TimeSlot
  version : Nat
  deriving DecidableEq, Repr

/-- The whole MockServer state: slot table, lock table, version counter and
the log of broadcast events. -/
structure ServerState where
  slots : List TimeSlot
  locks : List LockRecord
  version : Nat
  events : List UpdateEvent
  deriving DecidableEq, Repr

attribute [ext] ServerState

/-- JS `Map.set` on an association list: replace in place if the key is
present, else append. -/
def upsertBy {α : Type} (key : α → String) (l : List α) (x : α) : List α :=
  if l.any (fun y => decide (key y = key x)) then
    l.map (fun y => if key y = key x then x else y)
  else
    l ++ [x]

/-- Lookup of a slot by id (`this.slots.get`). -/
def findSlot (st : ServerState) (slotId : String) : Option TimeSlot :=
  st.slots.find? (fun s => decide (s.id = slotId))

/-- Lookup of a lock by id (`this.locks.get`). -/
def findLock (st : ServerState) (lockId : String) : Option LockRecord :=
  st.locks.find? (fun r => decide (r.lockId = lockId))

/-- In-place mutation of the slot object held by the map: every entry with
the same id is replaced (ids are unique, so this is the single entry). -/
def replaceSlot (slots : List TimeSlot) (s' : TimeSlot) : List TimeSlot :=
  slots.map (fun s => if s.id = s'.id then s' else s)

/-- `this.locks.delete lockId`. -/
def deleteLock (locks : List LockRecord) (lockId : String) : List LockRecord :=
  locks.filter (fun r => decide (r.lockId ≠ lockId))

/-- `bumpVersionAndBroadcast`: increment the version and broadcast the
current slots with the new version. -/
def bumpVersionAndBroadcast (st : ServerState) : ServerState :=
  { st with
    version := st.version + 1
    events := st.events ++ [{ slots := st.slots, version := st.version + 1 }] }

/-! ### Requests and responses (from `src/types/booking.ts`) -/

structure LockSlotRequest where
  slotId : String
  userId : String
  expectedVersion : Option Nat
  deriving DecidableEq, Repr

inductive LockErr where
  | AlreadyBooked
  | LockedByOther
  | NotFound
  | VersionConflict
  deriving DecidableEq, Repr

structure LockInfo where
  lockId : String
  slotId : String
  expiresAt : Nat
  deriving DecidableEq, Repr

structure LockSlotResponse where
  ok : Bool
  lock : Option LockInfo
  version : Nat
  error : Option LockErr
  deriving DecidableEq, Repr

structure ConfirmBookingRequest where
  lockId : String
  userId : String
  deriving DecidableEq, Repr

inductive ConfirmErr where
  | LockExpired
  | LockNotFound
  | AlreadyBooked
  | NotFound
  deriving DecidableEq, Repr

structure ConfirmBookingResponse where
  ok : Bool
  slot : Option TimeSlot
  version : Nat
  error : Option ConfirmErr
  deriving DecidableEq, Repr

structure ReleaseLockRequest where
  lockId : String
  userId : String
  deriving DecidableEq, Repr

inductive ReleaseErr where
  | LockNotFound
  | Forbidden
  deriving DecidableEq, Repr

structure ReleaseLockResponse where
  ok : Bool
  version : Nat
  error : Option ReleaseErr
  deriving DecidableEq, Repr

/-! ### The constructor -/

/-- `padStart(2, "0")` on the decimal rendering of an hour, plus ":00". -/
def fmtHour (h : Nat) : String :=
  (if h < 10 then "0" ++ toString h else toString h) ++ ":00"

/-- The slot built for index `i` with `booked` flag `flag`: status is
`"available"` even when the flag is set. -/
def mkSlot (i : Nat) (flag : Bool) : TimeSlot :=
  { id := "slot-" ++ toString (i + 1)
    label := fmtHour (10 + i) ++ "-" ++ fmtHour (10 + i + 1)
    status := .available
    lockedBy := none
    booked := flag }

/-- The constructor: one slot per entry of `flags` (the source draws 5..9
slots with each flag true with probability 0.4), inserted into the map in
order. Version starts at 1, no locks, no events yet. -/
def initState (flags : List Bool) : ServerState :=
  { slots := (flags.enum.map (fun p => mkSlot p.1 p.2)).foldl
      (fun m s => upsertBy TimeSlot.id m s) []
    locks := []
    version := 1
    events := [] }

/-! ### lockSlot -/

/-- The JS guard `req.expectedVersion && req.expectedVersion !== this.version`:
true only for a present, nonzero expected version different from `v`. -/
def evConflict (ev : Option Nat) (v : Nat) : Bool :=
  match ev with
  | none => false
  | some e => decide (e ≠ 0) && decide (e ≠ v)

def lockSlot (st : ServerState) (req : LockSlotRequest) (lockId : String)
    (now : Nat) : LockSlotResponse × ServerState :=
  match findSlot st req.slotId with
  | none =>
      ({ ok := false, lock := none, version := st.version,
         error := some .NotFound }, st)
  | some slot =>
      if evConflict req.expectedVersion st.version then
        ({ ok := false, lock := none, version := st.version,
           error := some .VersionConflict }, st)
      else if slot.status = .booked then
        ({ ok := false, lock := none, version := st.version,
           error := some .AlreadyBooked }, st)
      else if slot.booked then
        ({ ok := false, lock := none, version := st.version,
           error := some .AlreadyBooked }, st)
      else if slot.status = .locked ∧ slot.lockedBy ≠ some req.userId then
        ({ ok := false, lock := none, version := st.version,
           error := some .LockedByOther }, st)
      else
        let lock : LockRecord :=
          { lockId := lockId, slotId := slot.id, userId := req.userId,
            expiresAt := now + 10000 }
        let slot' : TimeSlot :=
          { slot with status := .locked, lockedBy := some req.userId }
        let st' := bumpVersionAndBroadcast
          { st with
            slots := replaceSlot st.slots slot'
            locks := upsertBy LockRecord.lockId st.locks lock }
        ({ ok := true,
           lock := some { lockId := lockId, slotId := slot.id,
                          expiresAt := lock.expiresAt },
           version := st'.version, error := none }, st')

/-! ### confirmBooking -/

def confirmBooking (st : ServerState) (req : ConfirmBookingRequest)
    (now : Nat) : ConfirmBookingResponse × ServerState :=
  match findLock st req.lockId with
  | none =>
      ({ ok := false, slot := none, version := st.version,
         error := some .LockNotFound }, st)
  | some r =>
      if r.userId ≠ req.userId then
        ({ ok := false, slot := none, version := st.version,
           error := some .LockNotFound }, st)
      else if r.expiresAt ≤ now then
        ({ ok := false, slot := none, version := st.version,
           error := some .LockExpired }, st)
      else
        match findSlot st r.slotId with
        | none =>
            ({ ok := false, slot := none, version := st.version,
               error := some .NotFound }, st)
        | some slot =>
            if slot.status = .booked then
              ({ ok := false, slot := none, version := st.version,
                 error := some .AlreadyBooked }, st)
            else if slot.booked then
              ({ ok := false, slot := none, version := st.version,
                 error := some .AlreadyBooked }, st)
            else
              let slot' : TimeSlot :=
                { slot with
                  booked := false
                  lockedBy := none
                  status := .available }
              let st' := bumpVersionAndBroadcast
                { st with
                  slots := replaceSlot st.slots slot'
                  locks := deleteLock st.locks req.lockId }
              ({ ok := true, slot := some slot', version := st'.version,
                 error := none }, st')

/-! ### releaseLock -/

def releaseLock (st : ServerState) (req : ReleaseLockRequest) :
    ReleaseLockResponse × ServerState :=
  match findLock st req.lockId with
  | none =>
      ({ ok := false, version := st.version, error := some .LockNotFound }, st)
  | some r =>
      if r.userId ≠ req.userId then
        ({ ok := false, version := st.version, error := some .Forbidden }, st)
      else
        let locks' := deleteLock st.locks req.lockId
        let slots' :=
          match findSlot st r.slotId with
          | some slot =>
              if slot.status = .locked then
                replaceSlot st.slots
                  { slot with status := .available, lockedBy := none }
              else st.slots
          | none => st.slots
        let st' := bumpVersionAndBroadcast
          { st with slots := slots', locks := locks' }
        ({ ok := true, version := st'.version, error := none }, st')

/-! ### gcExpiredLocks (the sweeper) -/

/-- One pass of the `this.locks.forEach` body over the remaining records:
for each expired record, look its slot up in the current slot table and, if
that slot is `"locked"`, revert it to `"available"` and set the changed
flag. Returns the final slot table and changed flag. -/
def gcFold (now : Nat) (recs : List LockRecord) (slots : List TimeSlot)
    (changed : Bool) : List TimeSlot × Bool :=
  match recs with
  | [] => (slots, changed)
  | r :: rest =>
      if r.expiresAt ≤ now then
        match slots.find? (fun s => decide (s.id = r.slotId)) with
        | some slot =>
            if slot.status = .locked then
              gcFold now rest
                (replaceSlot slots
                  { slot with status := .available, lockedBy := none }) true
            else gcFold now rest slots changed
        | none => gcFold now rest slots changed
      else gcFold now rest slots changed

/-- The lock ids pushed to `expiredLockIds` during the sweep: exactly the
ids of the records with `expiresAt <= now`, in table order. -/
def expiredIds (now : Nat) (locks : List LockRecord) : List String :=
  (locks.filter (fun r => decide (r.expiresAt ≤ now))).map LockRecord.lockId

def gcExpiredLocks (st : ServerState) (now : Nat) : ServerState :=
  let fold := gcFold now st.locks st.slots false
  let locks' := st.locks.filter
    (fun r => decide (¬ (expiredIds now st.locks).contains r.lockId))
  let st' := { st with slots := fold.1, locks := locks' }
  if fold.2 then bumpVersionAndBroadcast st' else st'

/-! ### Small helper lemmas about the map model -/

lemma upsertBy_map_key {α : Type} (key : α → String) (l : List α) (x : α) :
    (upsertBy key l x).map key =
      if l.any (fun y => decide (key y = key x)) then l.map key
      else l.map key ++ [key x] := by
  unfold upsertBy
  split
  · rw [List.map_map]
    refine List.map_congr_left ?_
    intro y _
    simp only [Function.comp_apply]
    split
    · simp_all
    · rfl
  · simp

lemma upsertBy_nodup {α : Type} (key : α → String) (l : List α) (x : α)
    (h : (l.map key).Nodup) : ((upsertBy key l x).map key).Nodup := by
  rw [upsertBy_map_key]
  split
  · exact h
  · rename_i hany
    rw [List.nodup_append]
    refine ⟨h, List.nodup_singleton _, ?_⟩
    intro a ha
    simp only [List.mem_singleton]
    intro hax
    rcases List.mem_map.mp ha with ⟨y, hy, hky⟩
    have := (List.any_eq_false.mp (Bool.not_eq_true _ ▸ hany)) y hy
    simp only [decide_eq_true_eq] at this
    exact this (hky.symm ▸ hax ▸ rfl)

lemma upsertBy_of_absent {α : Type} (key : α → String) (l : List α) (x : α)
    (h : l.any (fun y => decide (key y = key x)) = false) :
    upsertBy key l x = l ++ [x] := by
  unfold upsertBy
  simp [h]

lemma replaceSlot_map_id (slots : List TimeSlot) (s' : TimeSlot) :
    (replaceSlot slots s').map TimeSlot.id = slots.map TimeSlot.id := by
  unfold replaceSlot
  rw [List.map_map]
  refine List.map_congr_left ?_
  intro s _
  simp only [Function.comp_apply, apply_ite TimeSlot.id]
  split
  · simp_all
  · rfl

lemma mem_replaceSlot {slots : List TimeSlot} {s' t : TimeSlot}
    (ht : t ∈ replaceSlot slots s') :
    t = s' ∨ (t ∈ slots ∧ t.id ≠ s'.id) := by
  unfold replaceSlot at ht
  rcases List.mem_map.mp ht with ⟨s, hs, hst⟩
  by_cases h : s.id = s'.id
  · left
    simp [h] at hst
    exact hst.symm
  · right
    simp [h] at hst
    exact ⟨hst ▸ hs, hst ▸ h⟩

lemma key_inj {α : Type} (key : α → String) {l : List α}
    (h : (l.map key).Nodup) {a b : α} (ha : a ∈ l) (hb : b ∈ l)
    (hk : key a = key b) : a = b :=
  List.inj_on_of_nodup_map h ha hb hk

lemma find?_eq_of_mem_nodup {slots : List TimeSlot}
    (hnd : (slots.map TimeSlot.id).Nodup) {s : TimeSlot} (hs : s ∈ slots) :
    slots.find? (fun t => decide (t.id = s.id)) = some s := by
  have hsome : (slots.find? (fun t => decide (t.id = s.id))).isSome := by
    rw [List.find?_isSome]
    exact ⟨s, hs, by simp⟩
  rcases Option.isSome_iff_exists.mp hsome with ⟨t, ht⟩
  have htmem := List.mem_of_find?_eq_some ht
  have htid : t.id = s.id := by
    have := List.find?_some ht
    simpa using this
  rw [ht]
  exact congrArg some (key_inj TimeSlot.id hnd htmem hs htid)

/-! ### Well-formedness and the lock invariant -/

/-- Well-formedness: slot ids and lock ids are keys of JS `Map`s, hence
pairwise distinct. -/
def WF (st : ServerState) : Prop :=
  (st.slots.map TimeSlot.id).Nodup ∧ (st.locks.map LockRecord.lockId).Nodup

/-- Every `"locked"` slot is referenced by at least one lease record. -/
def LockedHasLease (st : ServerState) : Prop :=
  ∀ s ∈ st.slots, s.status = .locked → ∃ r ∈ st.locks, r.slotId = s.id

def Inv (st : ServerState) : Prop := WF st ∧ LockedHasLease st

lemma initState_WF (flags : List Bool) : WF (initState flags) := by
  constructor
  · show ((((flags.enum.map (fun p => mkSlot p.1 p.2)).foldl
      (fun m s => upsertBy TimeSlot.id m s) []).map TimeSlot.id)).Nodup
    generalize flags.enum.map (fun p => mkSlot p.1 p.2) = l
    have : ∀ (l : List TimeSlot) (acc : List TimeSlot),
        ((acc.map TimeSlot.id).Nodup) →
        (((l.foldl (fun m s => upsertBy TimeSlot.id m s) acc).map
          TimeSlot.id)).Nodup := by
      intro l
      induction l with
      | nil => intro acc h; exact h
      | cons x xs ih =>
          intro acc h
          exact ih _ (upsertBy_nodup TimeSlot.id acc x h)
    exact this l [] List.nodup_nil
  · exact List.nodup_nil

lemma initState_Inv (flags : List Bool) : Inv (initState flags) := by
  refine ⟨initState_WF flags, ?_⟩
  intro s hs hlocked
  exfalso
  show False
  have : ∀ (l : List TimeSlot) (acc : List TimeSlot),
      (∀ t ∈ acc, t.status = .available) →
      (∀ t ∈ l, t.status = .available) →
      ∀ t ∈ l.foldl (fun m s => upsertBy TimeSlot.id m s) acc,
        t.status = .available := by
    intro l
    induction l with
    | nil => intro acc hacc _ t ht; exact hacc t ht
    | cons x xs ih =>
        intro acc hacc hl t ht
        refine ih _ ?_ (fun u hu => hl u (List.mem_cons_of_mem _ hu)) t ht
        intro u hu
        simp only [upsertBy] at hu
        split at hu
        · rcases List.mem_map.mp hu with ⟨v, hv, hvu⟩
          by_cases hc : v.id = x.id
          · simp [hc] at hvu
            exact hvu ▸ hl x (List.mem_cons_self _ _)
          · simp [hc] at hvu
            exact hvu ▸ hacc v hv
        · rcases List.mem_append.mp hu with hv | hv
          · exact hacc u hv
          · rw [List.mem_singleton.mp hv]
            exact hl x (List.mem_cons_self _ _)
  have hall := this _ [] (by intro t ht; cases ht) ?_ s hs
  · rw [hall] at hlocked
    cases hlocked
  · intro t ht
    rcases List.mem_map.mp ht with ⟨p, _, hp⟩
    rw [← hp]
    rfl

lemma findSlot_spec {st : ServerState} {x : String} {s : TimeSlot}
    (h : findSlot st x = some s) : s ∈ st.slots ∧ s.id = x := by
  refine ⟨List.mem_of_find?_eq_some h, ?_⟩
  have := List.find?_some h
  simpa using this

lemma findLock_spec {st : ServerState} {x : String} {r : LockRecord}
    (h : findLock st x = some r) : r ∈ st.locks ∧ r.lockId = x := by
  refine ⟨List.mem_of_find?_eq_some h, ?_⟩
  have := List.find?_some h
  simpa using this

lemma findLock_none_any_false {st : ServerState} {lid : String}
    (h : findLock st lid = none) :
    st.locks.any (fun y => decide (y.lockId = lid)) = false := by
  rw [List.any_eq_false]
  intro r hr
  have := List.find?_eq_none.mp h r hr
  simpa using this

lemma deleteLock_nodup {locks : List LockRecord} {lid : String}
    (h : (locks.map LockRecord.lockId).Nodup) :
    ((deleteLock locks lid).map LockRecord.lockId).Nodup := by
  exact ((List.filter_sublist locks).map LockRecord.lockId).nodup h

lemma inv_bump {st : ServerState} : Inv (bumpVersionAndBroadcast st) ↔ Inv st :=
  Iff.rfl

lemma mem_deleteLock {locks : List LockRecord} {lid : String} {r : LockRecord}
    (hr : r ∈ locks) (hne : r.lockId ≠ lid) : r ∈ deleteLock locks lid := by
  unfold deleteLock
  rw [List.mem_filter]
  exact ⟨hr, by simpa using hne⟩

/-! ### Invariant preservation by the four operations -/

lemma lockSlot_inv (st : ServerState) (req : LockSlotRequest) (lid : String)
    (now : Nat) (hfresh : findLock st lid = none) (h : Inv st) :
    Inv (lockSlot st req lid now).2 := by
  unfold lockSlot
  cases hslot : findSlot st req.slotId with
  | none => exact h
  | some slot =>
      simp only
      split
      · exact h
      split
      · exact h
      split
      · exact h
      split
      · exact h
      rw [inv_bump]
      have happ := upsertBy_of_absent LockRecord.lockId st.locks
        ⟨lid, slot.id, req.userId, now + 10000⟩ (findLock_none_any_false hfresh)
      constructor
      · constructor
        · show ((replaceSlot st.slots _).map TimeSlot.id).Nodup
          rw [replaceSlot_map_id]
          exact h.1.1
        · show ((upsertBy LockRecord.lockId st.locks _).map LockRecord.lockId).Nodup
          exact upsertBy_nodup _ _ _ h.1.2
      · intro s hs hlocked
        rcases mem_replaceSlot hs with hnew | ⟨hold, hne⟩
        · refine ⟨⟨lid, slot.id, req.userId, now + 10000⟩, ?_, ?_⟩
          · show _ ∈ upsertBy LockRecord.lockId st.locks _
            rw [happ]
            simp
          · rw [hnew]
        · rcases h.2 s hold hlocked with ⟨r, hrmem, hrid⟩
          refine ⟨r, ?_, hrid⟩
          show r ∈ upsertBy LockRecord.lockId st.locks _
          rw [happ]
          exact List.mem_append_left _ hrmem

lemma confirmBooking_inv (st : ServerState) (req : ConfirmBookingRequest)
    (now : Nat) (h : Inv st) : Inv (confirmBooking st req now).2 := by
  unfold confirmBooking
  cases hlk : findLock st req.lockId with
  | none => exact h
  | some r =>
      simp only
      split
      · exact h
      split
      · exact h
      cases hslot : findSlot st r.slotId with
      | none => exact h
      | some slot =>
          simp only
          split
          · exact h
          split
          · exact h
          rw [inv_bump]
          constructor
          · exact ⟨by
              show ((replaceSlot st.slots _).map TimeSlot.id).Nodup
              rw [replaceSlot_map_id]
              exact h.1.1,
            deleteLock_nodup h.1.2⟩
          · intro s hs hlocked
            rcases mem_replaceSlot hs with hnew | ⟨hold, hne⟩
            · rw [hnew] at hlocked
              cases hlocked
            · rcases h.2 s hold hlocked with ⟨r', hr'mem, hr'id⟩
              refine ⟨r', ?_, hr'id⟩
              refine mem_deleteLock hr'mem ?_
              intro hcontra
              have hr := findLock_spec hlk
              have : r' = r := key_inj LockRecord.lockId h.1.2 hr'mem hr.1
                (hcontra.trans hr.2.symm)
              have hslotid := (findSlot_spec hslot).2
              apply hne
              show s.id = _
              rw [← hr'id, this, ← hslotid]

lemma releaseLock_inv (st : ServerState) (req : ReleaseLockRequest)
    (h : Inv st) : Inv (releaseLock st req).2 := by
  unfold releaseLock
  cases hlk : findLock st req.lockId with
  | none => exact h
  | some r =>
      simp only
      split
      · exact h
      rw [inv_bump]
      have hr := findLock_spec hlk
      cases hslot : findSlot st r.slotId with
      | none =>
          simp only
          constructor
          · exact ⟨h.1.1, deleteLock_nodup h.1.2⟩
          · intro s hs hlocked
            rcases h.2 s hs hlocked with ⟨r', hr'mem, hr'id⟩
            refine ⟨r', mem_deleteLock hr'mem ?_, hr'id⟩
            intro hcontra
            have hr'r : r' = r := key_inj LockRecord.lockId h.1.2 hr'mem hr.1
              (hcontra.trans hr.2.symm)
            have hslot' : st.slots.find?
                (fun t => decide (t.id = r.slotId)) = none := hslot
            have hfind := List.find?_eq_none.mp hslot' s hs
            simp only [decide_eq_true_eq] at hfind
            exact hfind (by rw [← hr'id, hr'r])
      | some slot =>
          simp only
          have hslotmem := findSlot_spec hslot
          split
          · rename_i hlockedSlot
            constructor
            · constructor
              · show ((replaceSlot st.slots _).map TimeSlot.id).Nodup
                rw [replaceSlot_map_id]
                exact h.1.1
              · exact deleteLock_nodup h.1.2
            · intro s hs hlocked
              rcases mem_replaceSlot hs with hnew | ⟨hold, hne⟩
              · rw [hnew] at hlocked
                cases hlocked
              · rcases h.2 s hold hlocked with ⟨r', hr'mem, hr'id⟩
                refine ⟨r', mem_deleteLock hr'mem ?_, hr'id⟩
                intro hcontra
                have : r' = r := key_inj LockRecord.lockId h.1.2 hr'mem hr.1
                  (hcontra.trans hr.2.symm)
                apply hne
                show s.id = _
                rw [← hr'id, this, ← hslotmem.2]
          · rename_i hnotLocked
            constructor
            · exact ⟨h.1.1, deleteLock_nodup h.1.2⟩
            · intro s hs hlocked
              rcases h.2 s hs hlocked with ⟨r', hr'mem, hr'id⟩
              refine ⟨r', mem_deleteLock hr'mem ?_, hr'id⟩
              intro hcontra
              have hr'r : r' = r := key_inj LockRecord.lockId h.1.2 hr'mem hr.1
                (hcontra.trans hr.2.symm)
              have hsid : s.id = slot.id := by
                rw [← hr'id, hr'r, ← hslotmem.2]
              have : s = slot := key_inj TimeSlot.id h.1.1 hs hslotmem.1 hsid
              rw [← this] at hnotLocked
              exact hnotLocked hlocked

/-! ### Characterization of the sweeper -/

/-- What the sweeper does to a locked slot: revert it to `"available"`. -/
def revertSlot (s : TimeSlot) : TimeSlot :=
  { s with status := .available, lockedBy := none }

/-- The sweep at time `now` reverts slot `s`: it is locked and some record
among `recs` references it and is expired. -/
def gcHits (now : Nat) (recs : List LockRecord) (s : TimeSlot) : Prop :=
  s.status = .locked ∧ ∃ r ∈ recs, r.slotId = s.id ∧ r.expiresAt ≤ now

instance (now : Nat) (recs : List LockRecord) (s : TimeSlot) :
    Decidable (gcHits now recs s) := by
  unfold gcHits
  infer_instance

lemma gcHits_cons_of_not_expired {now : Nat} {r : LockRecord}
    {rest : List LockRecord} {s : TimeSlot} (hexp : ¬ r.expiresAt ≤ now) :
    gcHits now (r :: rest) s ↔ gcHits now rest s := by
  unfold gcHits
  constructor
  · rintro ⟨hl, r', hr'mem, hr'id, hr'exp⟩
    rcases List.mem_cons.mp hr'mem with hrr | hr'rest
    · exact absurd (hrr ▸ hr'exp) hexp
    · exact ⟨hl, r', hr'rest, hr'id, hr'exp⟩
  · rintro ⟨hl, r', hr'mem, hr'id, hr'exp⟩
    exact ⟨hl, r', List.mem_cons_of_mem _ hr'mem, hr'id, hr'exp⟩

lemma gcHits_cons_of_ne {now : Nat} {r : LockRecord}
    {rest : List LockRecord} {s : TimeSlot} (hne : r.slotId ≠ s.id) :
    gcHits now (r :: rest) s ↔ gcHits now rest s := by
  unfold gcHits
  constructor
  · rintro ⟨hl, r', hr'mem, hr'id, hr'exp⟩
    rcases List.mem_cons.mp hr'mem with hrr | hr'rest
    · exact absurd (hrr ▸ hr'id) hne
    · exact ⟨hl, r', hr'rest, hr'id, hr'exp⟩
  · rintro ⟨hl, r', hr'mem, hr'id, hr'exp⟩
    exact ⟨hl, r', List.mem_cons_of_mem _ hr'mem, hr'id, hr'exp⟩

lemma gcFold_eq (now : Nat) (recs : List LockRecord) (slots : List TimeSlot)
    (changed : Bool) (hnd : (slots.map TimeSlot.id).Nodup) :
    gcFold now recs slots changed =
      (slots.map (fun s => if gcHits now recs s then revertSlot s else s),
       changed || decide (∃ s ∈ slots, gcHits now recs s)) := by
  induction recs generalizing slots changed with
  | nil =>
      simp [gcFold, gcHits]
  | cons r rest ih =>
      by_cases hexp : r.expiresAt ≤ now
      · cases hfind : slots.find? (fun s => decide (s.id = r.slotId)) with
        | none =>
            have hstep : gcFold now (r :: rest) slots changed
                = gcFold now rest slots changed := by
              simp only [gcFold]
              rw [if_pos hexp, hfind]
            have hiff : ∀ s ∈ slots,
                gcHits now (r :: rest) s ↔ gcHits now rest s := by
              intro s hs
              refine gcHits_cons_of_ne ?_
              have := List.find?_eq_none.mp hfind s hs
              simp only [decide_eq_true_eq] at this
              intro hcontra
              exact this hcontra.symm
            rw [hstep, ih slots changed hnd]
            simp only [Prod.mk.injEq]
            constructor
            · refine List.map_congr_left ?_
              intro s hs
              rw [if_congr (hiff s hs) rfl rfl]
            · congr 1
              rw [decide_eq_decide]
              exact ⟨fun ⟨s, hs, hh⟩ => ⟨s, hs, (hiff s hs).mpr hh⟩,
                fun ⟨s, hs, hh⟩ => ⟨s, hs, (hiff s hs).mp hh⟩⟩
        | some slot =>
            have hslotmem : slot ∈ slots := List.mem_of_find?_eq_some hfind
            have hslotid : slot.id = r.slotId := by
              have := List.find?_some hfind
              simpa using this
            by_cases hlk : slot.status = .locked
            · have hstep : gcFold now (r :: rest) slots changed
                  = gcFold now rest (replaceSlot slots (revertSlot slot))
                    true := by
                simp only [gcFold]
                rw [if_pos hexp, hfind]
                simp only [if_pos hlk]
                rfl
              have hnd' : ((replaceSlot slots
                  (revertSlot slot)).map TimeSlot.id).Nodup := by
                rw [replaceSlot_map_id]
                exact hnd
              rw [hstep, ih _ true hnd']
              simp only [Prod.mk.injEq]
              constructor
              · unfold replaceSlot
                rw [List.map_map]
                refine List.map_congr_left ?_
                intro s hs
                simp only [Function.comp_apply]
                by_cases hid : s.id = (revertSlot slot).id
                · have hid' : s.id = slot.id := hid
                  have hss : s = slot := key_inj TimeSlot.id hnd hs hslotmem hid'
                  rw [if_pos hid]
                  have hnot : ¬ gcHits now rest (revertSlot slot) := by
                    rintro ⟨hl, -⟩
                    cases hl
                  rw [if_neg hnot]
                  have hhits : gcHits now (r :: rest) s := by
                    refine ⟨hss ▸ hlk, r, List.mem_cons_self _ _, ?_, hexp⟩
                    rw [hss, hslotid]
                  rw [if_pos hhits, hss]
                · rw [if_neg hid]
                  have hne : r.slotId ≠ s.id := by
                    intro hcontra
                    exact hid (hcontra ▸ hslotid.symm ▸ rfl)
                  rw [if_congr (gcHits_cons_of_ne hne) rfl rfl]
              · have hex : ∃ s ∈ slots, gcHits now (r :: rest) s := by
                  refine ⟨slot, hslotmem, hlk, r, List.mem_cons_self _ _,
                    hslotid.symm, hexp⟩
                rw [decide_eq_true hex]
                simp
            · have hstep : gcFold now (r :: rest) slots changed
                  = gcFold now rest slots changed := by
                simp only [gcFold]
                rw [if_pos hexp, hfind]
                simp only [if_neg hlk]
              have hiff : ∀ s ∈ slots,
                  gcHits now (r :: rest) s ↔ gcHits now rest s := by
                intro s hs
                by_cases hid : r.slotId = s.id
                · have hss : s = slot := key_inj TimeSlot.id hnd hs hslotmem
                    (hslotid.trans hid).symm
                  constructor
                  · rintro ⟨hl, -⟩
                    exact absurd (hss ▸ hl) hlk
                  · rintro ⟨hl, -⟩
                    exact absurd (hss ▸ hl) hlk
                · exact gcHits_cons_of_ne hid
              rw [hstep, ih slots changed hnd]
              simp only [Prod.mk.injEq]
              constructor
              · refine List.map_congr_left ?_
                intro s hs
                rw [if_congr (hiff s hs) rfl rfl]
              · congr 1
                rw [decide_eq_decide]
                exact ⟨fun ⟨s, hs, hh⟩ => ⟨s, hs, (hiff s hs).mpr hh⟩,
                  fun ⟨s, hs, hh⟩ => ⟨s, hs, (hiff s hs).mp hh⟩⟩
      · have hstep : gcFold now (r :: rest) slots changed
            = gcFold now rest slots changed := by
          simp only [gcFold]
          rw [if_neg hexp]
        rw [hstep, ih slots changed hnd]
        simp only [Prod.mk.injEq]
        constructor
        · refine List.map_congr_left ?_
          intro s hs
          rw [if_congr (gcHits_cons_of_not_expired hexp) rfl rfl]
        · congr 1
          rw [decide_eq_decide]
          exact ⟨fun ⟨s, hs, hh⟩ =>
              ⟨s, hs, (gcHits_cons_of_not_expired hexp).mpr hh⟩,
            fun ⟨s, hs, hh⟩ =>
              ⟨s, hs, (gcHits_cons_of_not_expired hexp).mp hh⟩⟩

lemma gc_slots (st : ServerState) (now : Nat) :
    (gcExpiredLocks st now).slots = (gcFold now st.locks st.slots false).1 := by
  by_cases hc : (gcFold now st.locks st.slots false).2 = true
  · simp [gcExpiredLocks, hc, bumpVersionAndBroadcast]
  · rw [Bool.not_eq_true] at hc
    simp [gcExpiredLocks, hc]

lemma gc_locks (st : ServerState) (now : Nat) :
    (gcExpiredLocks st now).locks = st.locks.filter
      (fun r => decide (¬ (expiredIds now st.locks).contains r.lockId)) := by
  by_cases hc : (gcFold now st.locks st.slots false).2 = true
  · simp [gcExpiredLocks, hc, bumpVersionAndBroadcast]
  · rw [Bool.not_eq_true] at hc
    simp [gcExpiredLocks, hc]

lemma gc_version (st : ServerState) (now : Nat) :
    (gcExpiredLocks st now).version =
      if (gcFold now st.locks st.slots false).2 = true then st.version + 1
      else st.version := by
  by_cases hc : (gcFold now st.locks st.slots false).2 = true
  · simp [gcExpiredLocks, hc, bumpVersionAndBroadcast]
  · rw [Bool.not_eq_true] at hc
    simp [gcExpiredLocks, hc]

lemma gc_events (st : ServerState) (now : Nat) :
    (gcExpiredLocks st now).events =
      if (gcFold now st.locks st.slots false).2 = true then
        st.events ++ [{ slots := (gcFold now st.locks st.slots false).1,
                        version := st.version + 1 }]
      else st.events := by
  by_cases hc : (gcFold now st.locks st.slots false).2 = true
  · simp [gcExpiredLocks, hc, bumpVersionAndBroadcast]
  · rw [Bool.not_eq_true] at hc
    simp [gcExpiredLocks, hc]

lemma mem_expiredIds {now : Nat} {locks : List LockRecord} {r : LockRecord}
    (hnd : (locks.map LockRecord.lockId).Nodup) (hr : r ∈ locks) :
    r.lockId ∈ expiredIds now locks ↔ r.expiresAt ≤ now := by
  unfold expiredIds
  constructor
  · intro hmem
    rcases List.mem_map.mp hmem with ⟨q, hq, hqid⟩
    rcases List.mem_filter.mp hq with ⟨hqmem, hqexp⟩
    have : q = r := key_inj LockRecord.lockId hnd hqmem hr hqid
    rw [← this]
    simpa using hqexp
  · intro hexp
    exact List.mem_map.mpr ⟨r, List.mem_filter.mpr ⟨hr, by simpa using hexp⟩,
      rfl⟩

/-- Under unique lock ids, the sweep's lease deletion is exactly: drop the
expired records. -/
lemma gc_locks_filter {st : ServerState} (now : Nat)
    (hnd : (st.locks.map LockRecord.lockId).Nodup) :
    (gcExpiredLocks st now).locks =
      st.locks.filter (fun r => decide (¬ r.expiresAt ≤ now)) := by
  rw [gc_locks]
  refine List.filter_congr ?_
  intro r hr
  simp only [decide_eq_decide]
  constructor
  · intro hnc hexp
    exact hnc (List.elem_iff.mpr ((mem_expiredIds hnd hr).mpr hexp))
  · intro hnexp hc
    exact hnexp ((mem_expiredIds hnd hr).mp (List.elem_iff.mp hc))

/-- Under unique slot ids, the sweep's slot table is exactly: revert every
locked slot referenced by an expired record. -/
lemma gc_slots_map {st : ServerState} (now : Nat)
    (hnd : (st.slots.map TimeSlot.id).Nodup) :
    (gcExpiredLocks st now).slots =
      st.slots.map
        (fun s => if gcHits now st.locks s then revertSlot s else s) := by
  rw [gc_slots, gcFold_eq now st.locks st.slots false hnd]

/-- Under unique slot ids, the sweep's changed flag is exactly: some locked
slot is referenced by an expired record. -/
lemma gc_changed {st : ServerState} (now : Nat)
    (hnd : (st.slots.map TimeSlot.id).Nodup) :
    (gcFold now st.locks st.slots false).2 =
      decide (∃ s ∈ st.slots, gcHits now st.locks s) := by
  rw [gcFold_eq now st.locks st.slots false hnd]
  simp

lemma revertSlot_map_id (slots : List TimeSlot) (now : Nat)
    (recs : List LockRecord) :
    ((slots.map (fun s => if gcHits now recs s then revertSlot s else s)).map
      TimeSlot.id) = slots.map TimeSlot.id := by
  rw [List.map_map]
  refine List.map_congr_left ?_
  intro s _
  simp only [Function.comp_apply, apply_ite TimeSlot.id]
  split <;> rfl

lemma gc_inv (st : ServerState) (now : Nat) (h : Inv st) :
    Inv (gcExpiredLocks st now) := by
  constructor
  · constructor
    · rw [gc_slots_map now h.1.1, revertSlot_map_id]
      exact h.1.1
    · rw [gc_locks]
      exact ((List.filter_sublist st.locks).map LockRecord.lockId).nodup h.1.2
  · intro s hs hlocked
    rw [gc_slots_map now h.1.1] at hs
    rcases List.mem_map.mp hs with ⟨t, ht, hts⟩
    by_cases hhit : gcHits now st.locks t
    · rw [if_pos hhit] at hts
      rw [← hts] at hlocked
      cases hlocked
    · rw [if_neg hhit] at hts
      rw [← hts] at hlocked ⊢
      rcases h.2 t ht hlocked with ⟨r, hrmem, hrid⟩
      have hrexp : ¬ r.expiresAt ≤ now := by
        intro hexp
        exact hhit ⟨hlocked, r, hrmem, hrid, hexp⟩
      refine ⟨r, ?_, hrid⟩
      rw [gc_locks_filter now h.1.2]
      rw [List.mem_filter]
      exact ⟨hrmem, by simpa using hrexp⟩

/-! ### Operations, the step relation and reachability -/

/-- One server operation, with the nondeterministic inputs (lock id, clock)
made explicit. -/
inductive Op where
  | lock (req : LockSlotRequest) (lockId : String) (now : Nat)
  | confirm (req : ConfirmBookingRequest) (now : Nat)
  | release (req : ReleaseLockRequest)
  | sweep (now : Nat)

/-- The state after running one operation (the response is discarded). -/
def execOp (st : ServerState) : Op → ServerState
  | .lock req lockId now => (lockSlot st req lockId now).2
  | .confirm req now => (confirmBooking st req now).2
  | .release req => (releaseLock st req).2
  | .sweep now => gcExpiredLocks st now

/-- The state after running a sequence of operations. -/
def execOps (st : ServerState) (ops : List Op) : ServerState :=
  ops.foldl execOp st

/-- One step of the server: any lockSlot call (with a freshly generated
lock id — the source draws a random id), confirmBooking, releaseLock, or a
sweeper tick. -/
inductive Step : ServerState → ServerState → Prop where
  | lock : ∀ (st : ServerState) (req : LockSlotRequest) (lockId : String)
      (now : Nat), findLock st lockId = none →
      Step st (lockSlot st req lockId now).2
  | confirm : ∀ (st : ServerState) (req : ConfirmBookingRequest) (now : Nat),
      Step st (confirmBooking st req now).2
  | release : ∀ (st : ServerState) (req : ReleaseLockRequest),
      Step st (releaseLock st req).2
  | sweep : ∀ (st : ServerState) (now : Nat), Step st (gcExpiredLocks st now)

/-- Reachability by any sequence of operations. -/
def Reachable (init st : ServerState) : Prop :=
  Relation.ReflTransGen Step init st

lemma step_inv {a b : ServerState} (hstep : Step a b) (h : Inv a) : Inv b := by
  cases hstep with
  | lock req lockId now hfresh => exact lockSlot_inv a req lockId now hfresh h
  | confirm req now => exact confirmBooking_inv a req now h
  | release req => exact releaseLock_inv a req h
  | sweep now => exact gc_inv a now h

lemma reachable_inv {flags : List Bool} {st : ServerState}
    (h : Reachable (initState flags) st) : Inv st := by
  induction h with
  | refl => exact initState_Inv flags
  | tail _ hstep ih => exact step_inv hstep ih

/-! ### Case-split descriptions of the three mutating calls -/

lemma lockSlot_split (st : ServerState) (req : LockSlotRequest) (lid : String)
    (now : Nat) :
    ((lockSlot st req lid now).1.ok = false ∧
     (lockSlot st req lid now).1.error.isSome = true ∧
     (lockSlot st req lid now).2 = st) ∨
    ((lockSlot st req lid now).1.ok = true ∧
     (lockSlot st req lid now).1.error = none ∧
     ∃ slot, findSlot st req.slotId = some slot ∧
       (lockSlot st req lid now).2 = bumpVersionAndBroadcast
         { st with
           slots := replaceSlot st.slots
             { slot with status := .locked, lockedBy := some req.userId }
           locks := upsertBy LockRecord.lockId st.locks
             ⟨lid, slot.id, req.userId, now + 10000⟩ }) := by
  unfold lockSlot
  cases hslot : findSlot st req.slotId with
  | none => exact Or.inl ⟨rfl, rfl, rfl⟩
  | some slot =>
      simp only
      split
      · exact Or.inl ⟨rfl, rfl, rfl⟩
      split
      · exact Or.inl ⟨rfl, rfl, rfl⟩
      split
      · exact Or.inl ⟨rfl, rfl, rfl⟩
      split
      · exact Or.inl ⟨rfl, rfl, rfl⟩
      exact Or.inr ⟨rfl, rfl, slot, rfl, rfl⟩

lemma confirmBooking_split (st : ServerState) (req : ConfirmBookingRequest)
    (now : Nat) :
    ((confirmBooking st req now).1.ok = false ∧
     (confirmBooking st req now).1.error.isSome = true ∧
     (confirmBooking st req now).2 = st) ∨
    ((confirmBooking st req now).1.ok = true ∧
     (confirmBooking st req now).1.error = none ∧
     ∃ r slot, findLock st req.lockId = some r ∧
       findSlot st r.slotId = some slot ∧
       (confirmBooking st req now).1.slot = some
         { slot with booked := false, lockedBy := none,
                     status := .available } ∧
       (confirmBooking st req now).2 = bumpVersionAndBroadcast
         { st with
           slots := replaceSlot st.slots
             { slot with
               booked := false
               lockedBy := none
               status := .available }
           locks := deleteLock st.locks req.lockId }) := by
  unfold confirmBooking
  cases hlk : findLock st req.lockId with
  | none => exact Or.inl ⟨rfl, rfl, rfl⟩
  | some r =>
      simp only
      split
      · exact Or.inl ⟨rfl, rfl, rfl⟩
      split
      · exact Or.inl ⟨rfl, rfl, rfl⟩
      cases hslot : findSlot st r.slotId with
      | none => exact Or.inl ⟨rfl, rfl, rfl⟩
      | some slot =>
          simp only
          split
          · exact Or.inl ⟨rfl, rfl, rfl⟩
          split
          · exact Or.inl ⟨rfl, rfl, rfl⟩
          exact Or.inr ⟨rfl, rfl, r, slot, rfl, hslot, rfl, rfl⟩

lemma releaseLock_split (st : ServerState) (req : ReleaseLockRequest) :
    ((releaseLock st req).1.ok = false ∧
     (releaseLock st req).1.error.isSome = true ∧
     (releaseLock st req).2 = st) ∨
    ((releaseLock st req).1.ok = true ∧
     (releaseLock st req).1.error = none ∧
     ∃ r slots', findLock st req.lockId = some r ∧
       (releaseLock st req).2 = bumpVersionAndBroadcast
         { st with
           slots := slots'
           locks := deleteLock st.locks req.lockId }) := by
  unfold releaseLock
  cases hlk : findLock st req.lockId with
  | none => exact Or.inl ⟨rfl, rfl, rfl⟩
  | some r =>
      simp only
      split
      · exact Or.inl ⟨rfl, rfl, rfl⟩
      cases hslot : findSlot st r.slotId with
      | none => exact Or.inr ⟨rfl, rfl, r, st.slots, rfl, rfl⟩
      | some slot =>
          simp only
          by_cases hlkd : slot.status = SlotStatus.locked
          · refine Or.inr ⟨by trivial, by trivial, r, replaceSlot st.slots
              { slot with status := .available, lockedBy := none }, rfl, ?_⟩
            simp only [if_pos hlkd]
          · refine Or.inr ⟨by trivial, by trivial, r, st.slots, rfl, ?_⟩
            simp only [if_neg hlkd]

/-! ### Derived facts used by the claims -/

lemma bump_version (st : ServerState) :
    (bumpVersionAndBroadcast st).version = st.version + 1 := rfl

lemma step_version_le {a b : ServerState} (h : Step a b) :
    a.version ≤ b.version := by
  cases h with
  | lock req lid now hfresh =>
      rcases lockSlot_split a req lid now with ⟨_, _, hst⟩ |
        ⟨_, _, slot, _, hst⟩
      · rw [hst]
      · rw [hst, bump_version]
        exact Nat.le_succ _
  | confirm req now =>
      rcases confirmBooking_split a req now with ⟨_, _, hst⟩ |
        ⟨_, _, r, slot, _, _, _, hst⟩
      · rw [hst]
      · rw [hst, bump_version]
        exact Nat.le_succ _
  | release req =>
      rcases releaseLock_split a req with ⟨_, _, hst⟩ |
        ⟨_, _, r, slots', _, hst⟩
      · rw [hst]
      · rw [hst, bump_version]
        exact Nat.le_succ _
  | sweep now =>
      rw [gc_version]
      split
      · exact Nat.le_succ _
      · exact Nat.le_refl _

lemma reachable_version_le {a b : ServerState} (h : Reachable a b) :
    a.version ≤ b.version := by
  induction h with
  | refl => exact Nat.le_refl _
  | tail _ hstep ih => exact ih.trans (step_version_le hstep)

lemma mem_upsertBy {α : Type} {key : α → String} {l : List α} {x z : α}
    (hz : z ∈ upsertBy key l x) : z ∈ l ∨ z = x := by
  unfold upsertBy at hz
  split at hz
  · rcases List.mem_map.mp hz with ⟨y, hy, hyz⟩
    by_cases hk : key y = key x
    · right
      rw [if_pos hk] at hyz
      exact hyz.symm
    · left
      rw [if_neg hk] at hyz
      exact hyz ▸ hy
  · rcases List.mem_append.mp hz with hy | hy
    · exact Or.inl hy
    · exact Or.inr (List.mem_singleton.mp hy)

lemma find?_map_replace (locks : List LockRecord) (x : LockRecord)
    (hany : locks.any (fun y => decide (y.lockId = x.lockId)) = true) :
    ((locks.map (fun y => if y.lockId = x.lockId then x else y)).find?
      (fun r => decide (r.lockId = x.lockId))) = some x := by
  induction locks with
  | nil => cases hany
  | cons a l ih =>
      simp only [List.map_cons]
      by_cases hk : a.lockId = x.lockId
      · rw [if_pos hk]
        exact List.find?_cons_of_pos _ (by simp)
      · rw [if_neg hk]
        rw [List.find?_cons_of_neg _ (by simp [hk])]
        refine ih ?_
        simp only [List.any_cons] at hany
        simpa [hk] using hany

lemma findLock_upsert_self (locks : List LockRecord) (x : LockRecord) :
    ((upsertBy LockRecord.lockId locks x).find?
      (fun r => decide (r.lockId = x.lockId))) = some x := by
  unfold upsertBy
  split
  · exact find?_map_replace locks x (by assumption)
  · rename_i hany
    rw [List.find?_append]
    have hnone : locks.find? (fun r => decide (r.lockId = x.lockId)) = none := by
      rw [List.find?_eq_none]
      intro q hq
      have := List.any_eq_false.mp (Bool.not_eq_true _ ▸ hany) q hq
      simpa using this
    rw [hnone]
    simp

/-- No lease record in the table carries lock id `L`. -/
def NoLease (st : ServerState) (L : String) : Prop :=
  ∀ q ∈ st.locks, q.lockId ≠ L

lemma noLease_iff_findLock_none {st : ServerState} {L : String} :
    NoLease st L ↔ findLock st L = none := by
  unfold NoLease findLock
  rw [List.find?_eq_none]
  constructor
  · intro h q hq
    simpa using h q hq
  · intro h q hq
    have := h q hq
    simpa using this

lemma confirm_lockNotFound {st : ServerState} {req : ConfirmBookingRequest}
    {now : Nat} (h : findLock st req.lockId = none) :
    confirmBooking st req now =
      ({ ok := false, slot := none, version := st.version,
         error := some .LockNotFound }, st) := by
  unfold confirmBooking
  rw [h]

lemma release_lockNotFound {st : ServerState} {req : ReleaseLockRequest}
    (h : findLock st req.lockId = none) :
    releaseLock st req =
      ({ ok := false, version := st.version,
         error := some .LockNotFound }, st) := by
  unfold releaseLock
  rw [h]

/-- Does this operation feed lock id `L` into `lockSlot`? (Only `lockSlot`
ever inserts a lease, under its freshly generated id.) -/
def usesLockId (L : String) : Op → Prop
  | .lock _ lid _ => lid = L
  | .confirm _ _ => False
  | .release _ => False
  | .sweep _ => False

lemma noLease_deleteLock_self (locks : List LockRecord) (L : String) :
    ∀ q ∈ deleteLock locks L, q.lockId ≠ L := by
  intro q hq
  rcases List.mem_filter.mp hq with ⟨-, hdec⟩
  simpa using hdec

lemma execOp_noLease {st : ServerState} {op : Op} {L : String}
    (hn : NoLease st L) (hop : ¬ usesLockId L op) :
    NoLease (execOp st op) L := by
  cases op with
  | lock req lid now =>
      have hlid : lid ≠ L := hop
      rcases lockSlot_split st req lid now with ⟨_, _, hst⟩ |
        ⟨_, _, slot, _, hst⟩
      · show NoLease (lockSlot st req lid now).2 L
        rw [hst]
        exact hn
      · show NoLease (lockSlot st req lid now).2 L
        rw [hst]
        intro q hq
        rcases mem_upsertBy hq with hq' | hq'
        · exact hn q hq'
        · rw [hq']
          exact hlid
  | confirm req now =>
      rcases confirmBooking_split st req now with ⟨_, _, hst⟩ |
        ⟨_, _, r, slot, _, _, _, hst⟩
      · show NoLease (confirmBooking st req now).2 L
        rw [hst]
        exact hn
      · show NoLease (confirmBooking st req now).2 L
        rw [hst]
        intro q hq
        exact hn q (List.mem_filter.mp hq).1
  | release req =>
      rcases releaseLock_split st req with ⟨_, _, hst⟩ |
        ⟨_, _, r, slots', _, hst⟩
      · show NoLease (releaseLock st req).2 L
        rw [hst]
        exact hn
      · show NoLease (releaseLock st req).2 L
        rw [hst]
        intro q hq
        exact hn q (List.mem_filter.mp hq).1
  | sweep now =>
      show NoLease (gcExpiredLocks st now) L
      intro q hq
      rw [gc_locks] at hq
      exact hn q (List.mem_filter.mp hq).1

lemma execOps_noLease {st : ServerState} {L : String} {ops : List Op}
    (hn : NoLease st L) (hops : ∀ op ∈ ops, ¬ usesLockId L op) :
    NoLease (execOps st ops) L := by
  induction ops generalizing st with
  | nil => exact hn
  | cons op rest ih =>
      show NoLease (execOps (execOp st op) rest) L
      exact ih (execOp_noLease hn (hops op (List.mem_cons_self _ _)))
        (fun o ho => hops o (List.mem_cons_of_mem _ ho))

/-! ### Sweep: survivors, no-op sweeps, idempotence -/

lemma gc_survivors (st : ServerState) (now : Nat) :
    ∀ r ∈ (gcExpiredLocks st now).locks, ¬ r.expiresAt ≤ now := by
  intro r hr hexp
  rw [gc_locks] at hr
  rcases List.mem_filter.mp hr with ⟨hrmem, hdec⟩
  simp only [decide_eq_true_eq] at hdec
  refine hdec (List.elem_iff.mpr ?_)
  exact List.mem_map.mpr ⟨r, List.mem_filter.mpr ⟨hrmem, by simpa using hexp⟩,
    rfl⟩

lemma gc_wf {st : ServerState} (now : Nat) (h : WF st) :
    WF (gcExpiredLocks st now) := by
  constructor
  · rw [gc_slots_map now h.1, revertSlot_map_id]
    exact h.1
  · rw [gc_locks]
    exact ((List.filter_sublist st.locks).map LockRecord.lockId).nodup h.2

lemma gc_noop {st : ServerState} {now : Nat} (h : WF st)
    (hnone : ∀ r ∈ st.locks, ¬ r.expiresAt ≤ now) :
    gcExpiredLocks st now = st := by
  have hnohit : ∀ s ∈ st.slots, ¬ gcHits now st.locks s := by
    rintro s hs ⟨-, r, hr, -, hexp⟩
    exact hnone r hr hexp
  have hch : (gcFold now st.locks st.slots false).2 = false := by
    rw [gc_changed now h.1]
    simp only [decide_eq_false_iff_not]
    rintro ⟨s, hs, hhit⟩
    exact hnohit s hs hhit
  ext1
  · rw [gc_slots_map now h.1]
    have : st.slots.map
        (fun s => if gcHits now st.locks s then revertSlot s else s) =
        st.slots.map id := by
      refine List.map_congr_left ?_
      intro s hs
      rw [if_neg (hnohit s hs)]
      rfl
    rw [this, List.map_id]
  · rw [gc_locks_filter now h.2]
    refine List.filter_eq_self.mpr ?_
    intro r hr
    simpa using hnone r hr
  · rw [gc_version, hch]
    simp
  · rw [gc_events, hch]
    simp

lemma gc_idem {st : ServerState} (now : Nat) (h : WF st) :
    gcExpiredLocks (gcExpiredLocks st now) now = gcExpiredLocks st now :=
  gc_noop (gc_wf now h) (gc_survivors st now)

/-! ### Concrete executions used below -/

def reqAlice : LockSlotRequest :=
  { slotId := "slot-1", userId := "alice", expectedVersion := none }

/-- One available slot, no booked flag. -/
def st0 : ServerState := initState [false]

/-- After `lockSlot(slot-1, alice)` (fresh id `L1`, time 0). -/
def st1 : ServerState := (lockSlot st0 reqAlice "L1" 0).2

/-- After a second `lockSlot(slot-1, alice)` (fresh id `L2`, time 0). -/
def st2 : ServerState := (lockSlot st1 reqAlice "L2" 0).2

/-- After `confirmBooking(L2, alice)` at time 0. -/
def st3 : ServerState :=
  (confirmBooking st2 { lockId := "L2", userId := "alice" } 0).2

/-- After a sweep at time 20000 (lease `L1` is long expired). -/
def st4 : ServerState := gcExpiredLocks st3 20000

/-- One slot whose `booked` flag was set at construction time. -/
def stFlag : ServerState := initState [true]

/-- The slot record as it stands in `st2`. -/
def slot2 : TimeSlot :=
  { id := "slot-1", label := "10:00-11:00", status := .locked,
    lockedBy := some "alice", booked := false }

lemma st1_step : Step st0 st1 :=
  Step.lock st0 reqAlice "L1" 0 (by decide)

lemma st2_step : Step st1 st2 :=
  Step.lock st1 reqAlice "L2" 0 (by decide)

lemma st2_reachable : Reachable st0 st2 :=
  Relation.ReflTransGen.tail
    (Relation.ReflTransGen.tail Relation.ReflTransGen.refl st1_step) st2_step

/-! ### The claims -/

/-- C1: at the failing input — `lockSlot(slot-1, alice)` giving lease `L1`,
then `confirmBooking(L1, alice)` — the confirm succeeds, deletes the lease
and bumps the version by exactly 1, but the updated slot it returns and
stores has status `"available"` (restored to lockable), not `"booked"` as
the claim states. -/
theorem confirm_result_at_failing_input :
    (confirmBooking st1 { lockId := "L1", userId := "alice" } 0).1.ok
      = true ∧
    (confirmBooking st1 { lockId := "L1", userId := "alice" } 0).1.slot =
      some { id := "slot-1", label := "10:00-11:00", status := .available,
             lockedBy := none, booked := false } ∧
    (confirmBooking st1 { lockId := "L1", userId := "alice" } 0).2.slots =
      [{ id := "slot-1", label := "10:00-11:00", status := .available,
         lockedBy := none, booked := false }] ∧
    findLock (confirmBooking st1 { lockId := "L1", userId := "alice" } 0).2
      "L1" = none ∧
    (confirmBooking st1 { lockId := "L1", userId := "alice" } 0).2.version =
      st1.version + 1 := by
  decide

/-- C2 counterexample: after two same-owner `lockSlot` calls the state is
reachable from the initial state, `slot-1` has status `"locked"`, yet two
live lease records reference it — so "`locked` iff exactly one live lease
points at the slot" fails as stated. -/
theorem locked_slot_with_two_leases :
    Reachable (initState [false]) st2 ∧
    slot2 ∈ st2.slots ∧ slot2.status = .locked ∧
    (st2.locks.filter (fun r => decide (r.slotId = slot2.id))).length
      = 2 := by
  refine ⟨st2_reachable, ?_, ?_, ?_⟩ <;> decide

/-- C2 (amended): in every state reachable from the initial state by
lockSlot, confirmBooking, releaseLock and sweep operations, a slot with
status `"locked"` is referenced by at least one live lease record. (The
"exactly one" bound, and the converse direction, fail — see the
counterexample.) -/
theorem locked_slot_has_lease (flags : List Bool) (st : ServerState)
    (h : Reachable (initState flags) st) :
    ∀ s ∈ st.slots, s.status = .locked → ∃ r ∈ st.locks, r.slotId = s.id :=
  (reachable_inv h).2

theorem locked_slot_has_lease_witness :
    ∃ r ∈ st2.locks, r.slotId = slot2.id :=
  locked_slot_has_lease [false] st2 st2_reachable slot2 (by decide) (by decide)

/-- C3 counterexample: the state `st3` arises from an explicit operation
sequence (two same-owner locks, then a confirm); the sweep at time 20000
deletes the leftover expired lease `L1` — a state change — yet leaves the
version unchanged, so "a sweep that changed state increases the version by
exactly 1" fails as stated. -/
theorem sweep_changes_state_without_bump :
    st3 = execOps st0
      [Op.lock reqAlice "L1" 0, Op.lock reqAlice "L2" 0,
       Op.confirm { lockId := "L2", userId := "alice" } 0] ∧
    st4 = execOp st3 (Op.sweep 20000) ∧
    st3.locks ≠ [] ∧ st4.locks = [] ∧ st4 ≠ st3 ∧
    st4.version = st3.version := by
  refine ⟨rfl, rfl, ?_, ?_, ?_, ?_⟩ <;> decide

/-- C3 (amended): each successful lockSlot/confirmBooking/releaseLock bumps
the version by exactly 1 and each failed one leaves the whole state
untouched; a sweep bumps the version by exactly 1 iff its changed flag was
set, i.e. iff it reverted at least one locked slot (a sweep may delete
expired leases without a bump when their slots are not locked); the version
never decreases along any run. -/
theorem version_discipline (st : ServerState) (req : LockSlotRequest)
    (lid : String) (creq : ConfirmBookingRequest)
    (rreq : ReleaseLockRequest) (now cnow gnow : Nat)
    (a b : ServerState) (hreach : Reachable a b) :
    ((lockSlot st req lid now).1.ok = true →
      (lockSlot st req lid now).2.version = st.version + 1) ∧
    ((lockSlot st req lid now).1.ok = false →
      (lockSlot st req lid now).2 = st) ∧
    ((confirmBooking st creq cnow).1.ok = true →
      (confirmBooking st creq cnow).2.version = st.version + 1) ∧
    ((confirmBooking st creq cnow).1.ok = false →
      (confirmBooking st creq cnow).2 = st) ∧
    ((releaseLock st rreq).1.ok = true →
      (releaseLock st rreq).2.version = st.version + 1) ∧
    ((releaseLock st rreq).1.ok = false →
      (releaseLock st rreq).2 = st) ∧
    ((gcExpiredLocks st gnow).version = st.version + 1 ↔
      (gcFold gnow st.locks st.slots false).2 = true) ∧
    a.version ≤ b.version := by
  refine ⟨?_, ?_, ?_, ?_, ?_, ?_, ?_, reachable_version_le hreach⟩
  · intro hok
    rcases lockSlot_split st req lid now with ⟨hf, _, _⟩ |
      ⟨_, _, slot, _, hst⟩
    · rw [hok] at hf
      cases hf
    · rw [hst, bump_version]
  · intro hfail
    rcases lockSlot_split st req lid now with ⟨_, _, hst⟩ |
      ⟨hok, _, _, _, _⟩
    · exact hst
    · rw [hfail] at hok
      cases hok
  · intro hok
    rcases confirmBooking_split st creq cnow with ⟨hf, _, _⟩ |
      ⟨_, _, r, slot, _, _, _, hst⟩
    · rw [hok] at hf
      cases hf
    · rw [hst, bump_version]
  · intro hfail
    rcases confirmBooking_split st creq cnow with ⟨_, _, hst⟩ |
      ⟨hok, _, _, _, _, _, _, _⟩
    · exact hst
    · rw [hfail] at hok
      cases hok
  · intro hok
    rcases releaseLock_split st rreq with ⟨hf, _, _⟩ |
      ⟨_, _, r, slots', _, hst⟩
    · rw [hok] at hf
      cases hf
    · rw [hst, bump_version]
  · intro hfail
    rcases releaseLock_split st rreq with ⟨_, _, hst⟩ |
      ⟨hok, _, _, _, _, _⟩
    · exact hst
    · rw [hfail] at hok
      cases hok
  · rw [gc_version]
    by_cases hc : (gcFold gnow st.locks st.slots false).2 = true
    · rw [if_pos hc]
      simp [hc]
    · rw [if_neg hc]
      constructor
      · intro hv
        omega
      · intro h2
        exact absurd h2 hc

theorem version_discipline_witness :
    st1.version = st0.version + 1 :=
  (version_discipline st0 reqAlice "L1" ⟨"L1", "alice"⟩ ⟨"L1", "alice"⟩ 0 0 0
    st0 st0 Relation.ReflTransGen.refl).1 (by decide)

/-- C4 counterexample: with current version 1, a caller passing
expectedVersion 0 — given, and different from the current version — is not
rejected with VersionConflict: the truthiness guard in the source skips the
check and the call succeeds. -/
theorem expected_version_zero_skips_check :
    (lockSlot st0 ⟨"slot-1", "bob", some 0⟩ "L9" 0).1.ok = true ∧
    (some 0 : Option Nat) ≠ none ∧ (0 : Nat) ≠ st0.version := by
  refine ⟨?_, ?_, ?_⟩ <;> decide

/-- C4 (amended): lockSlot checks its preconditions in this order: unknown
slot → NotFound; expectedVersion given, nonzero and different from the
current version → VersionConflict with no mutation (a given expectedVersion
of 0 is falsy and skips the check); slot with status "booked" or with its
booked flag set → AlreadyBooked; slot locked by a different owner →
LockedByOther; only when all checks pass is a lease created under the
supplied fresh lock id. All failures leave the state unchanged. -/
theorem lockSlot_precondition_order (st : ServerState)
    (req : LockSlotRequest) (lid : String) (now : Nat) :
    (findSlot st req.slotId = none →
      (lockSlot st req lid now).1.error = some .NotFound ∧
      (lockSlot st req lid now).1.ok = false ∧
      (lockSlot st req lid now).2 = st) ∧
    (evConflict req.expectedVersion st.version = true ↔
      ∃ e, req.expectedVersion = some e ∧ e ≠ 0 ∧ e ≠ st.version) ∧
    (∀ slot, findSlot st req.slotId = some slot →
      evConflict req.expectedVersion st.version = true →
      (lockSlot st req lid now).1.error = some .VersionConflict ∧
      (lockSlot st req lid now).2 = st) ∧
    (∀ slot, findSlot st req.slotId = some slot →
      evConflict req.expectedVersion st.version = false →
      (slot.status = .booked ∨ slot.booked = true) →
      (lockSlot st req lid now).1.error = some .AlreadyBooked ∧
      (lockSlot st req lid now).2 = st) ∧
    (∀ slot, findSlot st req.slotId = some slot →
      evConflict req.expectedVersion st.version = false →
      slot.status ≠ .booked → slot.booked = false →
      slot.status = .locked → slot.lockedBy ≠ some req.userId →
      (lockSlot st req lid now).1.error = some .LockedByOther ∧
      (lockSlot st req lid now).2 = st) ∧
    (∀ slot, findSlot st req.slotId = some slot →
      evConflict req.expectedVersion st.version = false →
      slot.status ≠ .booked → slot.booked = false →
      ¬ (slot.status = .locked ∧ slot.lockedBy ≠ some req.userId) →
      (lockSlot st req lid now).1.ok = true ∧
      findLock (lockSlot st req lid now).2 lid =
        some ⟨lid, slot.id, req.userId, now + 10000⟩) := by
  refine ⟨?_, ?_, ?_, ?_, ?_, ?_⟩
  · intro h
    unfold lockSlot
    rw [h]
    exact ⟨rfl, rfl, rfl⟩
  · cases hev : req.expectedVersion with
    | none => simp [evConflict]
    | some e => simp [evConflict]
  · intro slot hslot hev
    unfold lockSlot
    rw [hslot]
    simp only
    rw [if_pos hev]
    exact ⟨rfl, rfl⟩
  · intro slot hslot hev hbooked
    unfold lockSlot
    rw [hslot]
    simp only
    rw [if_neg (by simp [hev])]
    rcases hbooked with hb | hb
    · rw [if_pos hb]
      exact ⟨rfl, rfl⟩
    · by_cases hs : slot.status = SlotStatus.booked
      · rw [if_pos hs]
        exact ⟨rfl, rfl⟩
      · rw [if_neg hs, if_pos hb]
        exact ⟨rfl, rfl⟩
  · intro slot hslot hev hnb hnf hlkd howner
    unfold lockSlot
    rw [hslot]
    simp only
    rw [if_neg (by simp [hev]), if_neg hnb, if_neg (by simp [hnf]),
      if_pos ⟨hlkd, howner⟩]
    exact ⟨rfl, rfl⟩
  · intro slot hslot hev hnb hnf hnl
    unfold lockSlot
    rw [hslot]
    simp only
    rw [if_neg (by simp [hev]), if_neg hnb, if_neg (by simp [hnf]),
      if_neg hnl]
    refine ⟨rfl, ?_⟩
    exact findLock_upsert_self st.locks ⟨lid, slot.id, req.userId, now + 10000⟩

theorem lockSlot_precondition_order_witness :
    (lockSlot st0 ⟨"missing", "u", none⟩ "L9" 0).1.error = some .NotFound ∧
    (lockSlot st0 ⟨"missing", "u", none⟩ "L9" 0).1.ok = false ∧
    (lockSlot st0 ⟨"missing", "u", none⟩ "L9" 0).2 = st0 :=
  (lockSlot_precondition_order st0 ⟨"missing", "u", none⟩ "L9" 0).1
    (by decide)

/-- C5 counterexample: in `st3` the leftover lease `L1` is expired at time
20000; the sweep deletes it — a reclaim — yet performs no version bump and
no notification, refuting "if one or more leases were reclaimed the version
is bumped … and subscribers are notified". -/
theorem sweep_reclaims_without_notification :
    (∃ r ∈ st3.locks, r.expiresAt ≤ 20000) ∧
    st4.locks = [] ∧ st4.version = st3.version ∧
    st4.events = st3.events := by
  refine ⟨?_, ?_, ?_, ?_⟩ <;> decide

/-- C5 (amended): on a sweep tick, every expired lease is deleted and every
non-expired one kept; every locked slot referenced by an expired lease is
reverted to available and every other slot kept; the version is bumped —
and one notification broadcast — exactly once iff at least one slot was
reverted (not once per lease); a sweep finding no expired lease changes
nothing; a second sweep with no new expirations is a no-op. -/
theorem sweep_behavior (st : ServerState) (now : Nat) (h : WF st) :
    (∀ r ∈ st.locks, r.expiresAt ≤ now →
      findLock (gcExpiredLocks st now) r.lockId = none) ∧
    (∀ r ∈ st.locks, ¬ r.expiresAt ≤ now →
      r ∈ (gcExpiredLocks st now).locks) ∧
    (∀ s ∈ st.slots, gcHits now st.locks s →
      revertSlot s ∈ (gcExpiredLocks st now).slots) ∧
    (∀ s ∈ st.slots, ¬ gcHits now st.locks s →
      s ∈ (gcExpiredLocks st now).slots) ∧
    ((gcExpiredLocks st now).version =
      if ∃ s ∈ st.slots, gcHits now st.locks s then st.version + 1
      else st.version) ∧
    ((gcExpiredLocks st now).events =
      if ∃ s ∈ st.slots, gcHits now st.locks s then
        st.events ++ [{ slots := (gcExpiredLocks st now).slots,
                        version := st.version + 1 }]
      else st.events) ∧
    ((∀ r ∈ st.locks, ¬ r.expiresAt ≤ now) → gcExpiredLocks st now = st) ∧
    gcExpiredLocks (gcExpiredLocks st now) now = gcExpiredLocks st now := by
  refine ⟨?_, ?_, ?_, ?_, ?_, ?_, fun hnone => gc_noop h hnone, gc_idem now h⟩
  · intro r hr hexp
    show ((gcExpiredLocks st now).locks.find?
      (fun q => decide (q.lockId = r.lockId))) = none
    rw [gc_locks_filter now h.2, List.find?_eq_none]
    intro q hq
    rcases List.mem_filter.mp hq with ⟨hqmem, hqdec⟩
    simp only [decide_eq_true_eq] at hqdec ⊢
    intro hqr
    exact hqdec ((key_inj LockRecord.lockId h.2 hqmem hr hqr) ▸ hexp)
  · intro r hr hexp
    rw [gc_locks_filter now h.2]
    exact List.mem_filter.mpr ⟨hr, by simpa using hexp⟩
  · intro s hs hhit
    rw [gc_slots_map now h.1]
    exact List.mem_map.mpr ⟨s, hs, by rw [if_pos hhit]⟩
  · intro s hs hmiss
    rw [gc_slots_map now h.1]
    exact List.mem_map.mpr ⟨s, hs, by rw [if_neg hmiss]⟩
  · rw [gc_version, gc_changed now h.1]
    by_cases hP : ∃ s ∈ st.slots, gcHits now st.locks s <;> simp [hP]
  · rw [gc_events, gc_changed now h.1, gc_slots]
    by_cases hP : ∃ s ∈ st.slots, gcHits now st.locks s <;> simp [hP]

theorem sweep_behavior_witness :
    findLock (gcExpiredLocks st3 20000) "L1" = none :=
  (sweep_behavior st3 20000 ⟨by decide, by decide⟩).1
    ⟨"L1", "slot-1", "alice", 10000⟩ (by decide) (by decide)

/-- C6: any lockSlot, confirmBooking or releaseLock call that returns an
error leaves the whole state — slot table, lease table, version counter and
event log — unchanged. -/
theorem failed_ops_leave_state_unchanged (st : ServerState)
    (req : LockSlotRequest) (lid : String) (now : Nat)
    (creq : ConfirmBookingRequest) (cnow : Nat)
    (rreq : ReleaseLockRequest) :
    (∀ e, (lockSlot st req lid now).1.error = some e →
      (lockSlot st req lid now).2 = st) ∧
    (∀ e, (confirmBooking st creq cnow).1.error = some e →
      (confirmBooking st creq cnow).2 = st) ∧
    (∀ e, (releaseLock st rreq).1.error = some e →
      (releaseLock st rreq).2 = st) := by
  refine ⟨?_, ?_, ?_⟩
  · intro e he
    rcases lockSlot_split st req lid now with ⟨_, _, hst⟩ |
      ⟨_, herr, _, _, _⟩
    · exact hst
    · rw [he] at herr
      cases herr
  · intro e he
    rcases confirmBooking_split st creq cnow with ⟨_, _, hst⟩ |
      ⟨_, herr, _, _, _, _, _, _⟩
    · exact hst
    · rw [he] at herr
      cases herr
  · intro e he
    rcases releaseLock_split st rreq with ⟨_, _, hst⟩ |
      ⟨_, herr, _, _, _, _⟩
    · exact hst
    · rw [he] at herr
      cases herr

theorem failed_ops_leave_state_unchanged_witness :
    (lockSlot st0 ⟨"missing", "u", none⟩ "L9" 0).2 = st0 :=
  (failed_ops_leave_state_unchanged st0 ⟨"missing", "u", none⟩ "L9" 0
    ⟨"L1", "u"⟩ 0 ⟨"L1", "u"⟩).1 .NotFound (by decide)

/-- C7: for a lease held by a different owner, confirmBooking fails with
LockNotFound (masking the lease's existence, not Forbidden) while
releaseLock fails with Forbidden, in both cases without any state change. -/
theorem owner_mismatch_confirm_release (st : ServerState) (lid u : String)
    (now : Nat) (r : LockRecord) (hfind : findLock st lid = some r)
    (hne : r.userId ≠ u) :
    confirmBooking st ⟨lid, u⟩ now =
      ({ ok := false, slot := none, version := st.version,
         error := some .LockNotFound }, st) ∧
    releaseLock st ⟨lid, u⟩ =
      ({ ok := false, version := st.version,
         error := some .Forbidden }, st) := by
  constructor
  · unfold confirmBooking
    have hf : findLock st
        (ConfirmBookingRequest.mk lid u).lockId = some r := hfind
    rw [hf]
    simp only
    rw [if_pos hne]
  · unfold releaseLock
    have hf : findLock st
        (ReleaseLockRequest.mk lid u).lockId = some r := hfind
    rw [hf]
    simp only
    rw [if_pos hne]

theorem owner_mismatch_confirm_release_witness :
    confirmBooking st1 ⟨"L1", "carol"⟩ 0 =
      ({ ok := false, slot := none, version := st1.version,
         error := some .LockNotFound }, st1) ∧
    releaseLock st1 ⟨"L1", "carol"⟩ =
      ({ ok := false, version := st1.version,
         error := some .Forbidden }, st1) :=
  owner_mismatch_confirm_release st1 "L1" "carol" 0
    ⟨"L1", "slot-1", "alice", 10000⟩ (by decide) (by decide)

/-- C8: a lease whose expiresAt deadline has passed cannot be confirmed by
its owner: confirmBooking checks expiry directly — no sweep needed — and
fails with LockExpired, leaving the state unchanged. -/
theorem expired_lease_confirm_fails (st : ServerState) (lid u : String)
    (now : Nat) (r : LockRecord) (hfind : findLock st lid = some r)
    (howner : r.userId = u) (hexp : r.expiresAt ≤ now) :
    confirmBooking st ⟨lid, u⟩ now =
      ({ ok := false, slot := none, version := st.version,
         error := some .LockExpired }, st) := by
  unfold confirmBooking
  have hf : findLock st
      (ConfirmBookingRequest.mk lid u).lockId = some r := hfind
  rw [hf]
  simp only
  rw [if_neg (by simp [howner]), if_pos hexp]

theorem expired_lease_confirm_fails_witness :
    confirmBooking st1 ⟨"L1", "alice"⟩ 10000 =
      ({ ok := false, slot := none, version := st1.version,
         error := some .LockExpired }, st1) :=
  expired_lease_confirm_fails st1 "L1" "alice" 10000
    ⟨"L1", "slot-1", "alice", 10000⟩ (by decide) (by decide) (by decide)

/-- C9: once a lease id has been successfully confirmed or successfully
released, any later confirmBooking or releaseLock with that id — after any
further operations, none of which feeds that same id back into lockSlot —
fails with LockNotFound: leases are deleted, never reused or mutated in
place. -/
theorem consumed_lease_not_reusable (st : ServerState)
    (creq : ConfirmBookingRequest) (rreq : ReleaseLockRequest)
    (now now2 : Nat) (u : String) (ops : List Op) :
    ((confirmBooking st creq now).1.ok = true →
      (∀ op ∈ ops, ¬ usesLockId creq.lockId op) →
      (confirmBooking (execOps (confirmBooking st creq now).2 ops)
        ⟨creq.lockId, u⟩ now2).1.error = some .LockNotFound ∧
      (releaseLock (execOps (confirmBooking st creq now).2 ops)
        ⟨creq.lockId, u⟩).1.error = some .LockNotFound) ∧
    ((releaseLock st rreq).1.ok = true →
      (∀ op ∈ ops, ¬ usesLockId rreq.lockId op) →
      (confirmBooking (execOps (releaseLock st rreq).2 ops)
        ⟨rreq.lockId, u⟩ now2).1.error = some .LockNotFound ∧
      (releaseLock (execOps (releaseLock st rreq).2 ops)
        ⟨rreq.lockId, u⟩).1.error = some .LockNotFound) := by
  constructor
  · intro hok hops
    rcases confirmBooking_split st creq now with ⟨hf, _, _⟩ |
      ⟨_, _, r, slot, _, _, _, hst⟩
    · rw [hok] at hf
      cases hf
    · have hn : NoLease (confirmBooking st creq now).2 creq.lockId := by
        rw [hst]
        intro q hq
        exact noLease_deleteLock_self st.locks creq.lockId q hq
      have hnone := noLease_iff_findLock_none.mp (execOps_noLease hn hops)
      have hc : findLock (execOps (confirmBooking st creq now).2 ops)
          (ConfirmBookingRequest.mk creq.lockId u).lockId = none := hnone
      have hr : findLock (execOps (confirmBooking st creq now).2 ops)
          (ReleaseLockRequest.mk creq.lockId u).lockId = none := hnone
      rw [confirm_lockNotFound hc, release_lockNotFound hr]
      exact ⟨rfl, rfl⟩
  · intro hok hops
    rcases releaseLock_split st rreq with ⟨hf, _, _⟩ |
      ⟨_, _, r, slots', _, hst⟩
    · rw [hok] at hf
      cases hf
    · have hn : NoLease (releaseLock st rreq).2 rreq.lockId := by
        rw [hst]
        intro q hq
        exact noLease_deleteLock_self st.locks rreq.lockId q hq
      have hnone := noLease_iff_findLock_none.mp (execOps_noLease hn hops)
      have hc : findLock (execOps (releaseLock st rreq).2 ops)
          (ConfirmBookingRequest.mk rreq.lockId u).lockId = none := hnone
      have hr : findLock (execOps (releaseLock st rreq).2 ops)
          (ReleaseLockRequest.mk rreq.lockId u).lockId = none := hnone
      rw [confirm_lockNotFound hc, release_lockNotFound hr]
      exact ⟨rfl, rfl⟩

theorem consumed_lease_not_reusable_witness :
    (confirmBooking (execOps (confirmBooking st1 ⟨"L1", "alice"⟩ 0).2 [])
      ⟨"L1", "bob"⟩ 5).1.error = some .LockNotFound ∧
    (releaseLock (execOps (confirmBooking st1 ⟨"L1", "alice"⟩ 0).2 [])
      ⟨"L1", "bob"⟩).1.error = some .LockNotFound :=
  (consumed_lease_not_reusable st1 ⟨"L1", "alice"⟩ ⟨"L1", "alice"⟩ 0 5 "bob"
    []).1 (by decide) (by simp)

/-- C10 counterexample: on a slot whose booked flag is set while its status
is "available", a lockSlot call with a stale nonzero expectedVersion fails
with VersionConflict, not AlreadyBooked — so "always fails with
AlreadyBooked" does not hold for every call against such a slot. -/
theorem booked_flag_version_conflict_first :
    (lockSlot stFlag ⟨"slot-1", "bob", some 2⟩ "L1" 0).1.error =
      some .VersionConflict ∧
    (∃ s ∈ stFlag.slots, s.booked = true ∧ s.status = .available) ∧
    (lockSlot stFlag ⟨"slot-1", "bob", some 2⟩ "L1" 0).1.error ≠
      some .AlreadyBooked := by
  refine ⟨?_, ?_, ?_⟩ <;> decide

/-- C10 (amended): on any slot whose booked flag is true — even though its
status is "available" — every lockSlot call whose expectedVersion guard
does not fire first fails with AlreadyBooked and changes nothing: the
flag, not only the status, gates acquisition. -/
theorem booked_flag_gates_lockSlot (st : ServerState)
    (req : LockSlotRequest) (lid : String) (now : Nat) (slot : TimeSlot)
    (hslot : findSlot st req.slotId = some slot)
    (hflag : slot.booked = true) (hav : slot.status = .available)
    (hev : evConflict req.expectedVersion st.version = false) :
    (lockSlot st req lid now).1.error = some .AlreadyBooked ∧
    (lockSlot st req lid now).1.ok = false ∧
    (lockSlot st req lid now).2 = st := by
  unfold lockSlot
  rw [hslot]
  simp only
  rw [if_neg (by simp [hev]), if_neg (by simp [hav]), if_pos hflag]
  exact ⟨rfl, rfl, rfl⟩

theorem booked_flag_gates_lockSlot_witness :
    (lockSlot stFlag ⟨"slot-1", "bob", none⟩ "L1" 0).1.error =
      some .AlreadyBooked ∧
    (lockSlot stFlag ⟨"slot-1", "bob", none⟩ "L1" 0).1.ok = false ∧
    (lockSlot stFlag ⟨"slot-1", "bob", none⟩ "L1" 0).2 = stFlag :=
  booked_flag_gates_lockSlot stFlag ⟨"slot-1", "bob", none⟩ "L1" 0
    { id := "slot-1", label := "10:00-11:00", status := .available,
      lockedBy := none, booked := true }
    (by decide) (by decide) (by decide) (by decide)

end Booking
